import Mathlib

/-!
Shallow embedding of the resilient access layer of the book-tracking
application: the rate limiter, the response cache and the gateway glue
(`src/lib/google-books.ts`), and the retry executor and circuit breaker
(`src/lib/retry-logic.ts`).  Timestamps are naturals (milliseconds, as
produced by a monotone `Date.now()`); mutable objects become explicit
state values threaded through the operations; a thrown value becomes an
`Except` error.
-/

set_option linter.unusedVariables false

/-! ## RateLimiter (google-books.ts lines 4-39) -/

/-- `this.requests = this.requests.filter(time => now - time < this.timeWindow)`. -/
def purgeRequests (timeWindow now : Nat) (requests : List Nat) : List Nat :=
  requests.filter (fun time => decide (now - time < timeWindow))

/-- The mutable fields and configuration of the `RateLimiter` class. -/
structure RateLimiter where
  requests : List Nat
  maxRequests : Nat
  timeWindow : Nat
deriving DecidableEq, Repr

/-- One pass of `waitForPermission` at clock value `now`: purge, then either
append `now` and grant (`true`), or leave the purged list and report that the
caller must wait and retry (`false`).  The fall-through push cannot fire in the
source: every retained timestamp has `now - time < timeWindow`, so the computed
`waitTime = timeWindow - (now - oldest) + 100` is positive whenever the purged
list is full. -/
def waitForPermissionStep (rl : RateLimiter) (now : Nat) : RateLimiter × Bool :=
  let purged := purgeRequests rl.timeWindow now rl.requests
  if rl.maxRequests ≤ purged.length then
    ({ rl with requests := purged }, false)
  else
    ({ rl with requests := purged ++ [now] }, true)

/-- Run a sequence of `waitForPermission` passes at the given clock values,
accumulating the full history of granted (appended) timestamps. -/
def runAttempts : RateLimiter → List Nat → List Nat → RateLimiter × List Nat
  | rl, hist, [] => (rl, hist)
  | rl, hist, now :: rest =>
    let step := waitForPermissionStep rl now
    runAttempts step.1 (if step.2 then hist ++ [now] else hist) rest

/-- Number of timestamps of `l` lying in the trailing window `(t - W, t]`. -/
def windowCount (timeWindow t : Nat) (l : List Nat) : Nat :=
  l.countP (fun h => decide (h ≤ t ∧ t - h < timeWindow))

/-- `getRequestCount`: purges (reassigning `this.requests`) and returns the
purged length, so it returns a count and a possibly-changed limiter. -/
def getRequestCount (rl : RateLimiter) (now : Nat) : Nat × RateLimiter :=
  let purged := purgeRequests rl.timeWindow now rl.requests
  (purged.length, { rl with requests := purged })

/-! ## Response cache (google-books.ts lines 45-67) -/

def CACHE_DURATION : Nat := 5 * 60 * 1000

/-- `{ data, timestamp }` as stored in `requestCache`. -/
structure CacheEntry (α : Type) where
  data : α
  timestamp : Nat
deriving DecidableEq, Repr

/-- A JS `Map` in insertion order: an association list with unique keys;
`Map.set` on a present key updates in place, on a fresh key appends. -/
abbrev Cache (α : Type) := List (String × CacheEntry α)

def mapGet {α : Type} (c : Cache α) (key : String) : Option (CacheEntry α) :=
  (c.find? (fun p => decide (p.1 = key))).map Prod.snd

def mapHasKey {α : Type} (c : Cache α) (key : String) : Bool :=
  c.any (fun p => decide (p.1 = key))

def mapSet {α : Type} (c : Cache α) (key : String) (e : CacheEntry α) : Cache α :=
  if mapHasKey c key then
    c.map (fun p => if p.1 = key then (key, e) else p)
  else c ++ [(key, e)]

def mapDelete {α : Type} (c : Cache α) (key : String) : Cache α :=
  c.filter (fun p => decide (¬ p.1 = key))

/-- `getCachedResponse`: fresh hit returns the data and leaves the map alone;
otherwise (missing or expired) the key is deleted and `null` returned. -/
def getCachedResponse {α : Type} (now : Nat) (c : Cache α) (key : String) :
    Option α × Cache α :=
  match mapGet c key with
  | some e =>
    if now - e.timestamp < CACHE_DURATION then (some e.data, c)
    else (none, mapDelete c key)
  | none => (none, mapDelete c key)

/-- `entries.sort((a, b) => a[1].timestamp - b[1].timestamp)`: a stable
ascending sort by timestamp. -/
def sortByTimestamp {α : Type} (c : Cache α) : Cache α :=
  List.insertionSort (fun a b => a.2.timestamp ≤ b.2.timestamp) c

/-- `setCachedResponse`: insert/overwrite with the current timestamp, then if
the map holds more than 100 entries delete the `size - 100`
earliest-timestamped keys. -/
def setCachedResponse {α : Type} (now : Nat) (c : Cache α) (key : String) (data : α) :
    Cache α :=
  let c1 := mapSet c key ⟨data, now⟩
  if 100 < c1.length then
    let toDelete := (sortByTimestamp c1).take (c1.length - 100)
    toDelete.foldl (fun m p => mapDelete m p.1) c1
  else c1

/-! ## Retry executor (retry-logic.ts lines 26-72) -/

/-- The loop body of `withRetry`, entered at attempt number `attempt` with the
last caught error in `lastError`.  `op i` is the outcome of the i-th invocation
of `operation`.  Returns the final outcome (the thrown JS value is an
`Option ε`, since with `maxAttempts = 0` the source throws the undefined
`lastErr`), the number of invocations of `operation`, and the number of
`onRetry` firings. -/
def retryLoop {α ε : Type} (op : Nat → Except ε α) (cond : ε → Bool)
    (maxAttempts : Nat) (lastErr : Option ε) (attempt : Nat) :
    Except (Option ε) α × Nat × Nat :=
  if h : attempt ≤ maxAttempts then
    match op attempt with
    | .ok value => (.ok value, 1, 0)
    | .error e =>
      if attempt = maxAttempts then (.error (some e), 1, 0)
      else if cond e then
        let r := retryLoop op cond maxAttempts (some e) (attempt + 1)
        (r.1, r.2.1 + 1, r.2.2 + 1)
      else (.error (some e), 1, 0)
  else (.error lastErr, 0, 0)
termination_by maxAttempts + 1 - attempt
decreasing_by omega

/-- `withRetry(operation, options)` with the loop starting at attempt 1. -/
def withRetry {α ε : Type} (op : Nat → Except ε α) (cond : ε → Bool)
    (maxAttempts : Nat) : Except (Option ε) α × Nat × Nat :=
  retryLoop op cond maxAttempts none 1

/-! ## Default retry predicate (retry-logic.ts lines 75-118) -/

/-- The fields of a JS error value that `defaultRetryCondition` inspects. -/
structure JsError where
  code : Option String
  message : Option String
  status : Option Int
deriving DecidableEq, Repr

/-- `s.includes(sub)`. -/
def strIncludes (s sub : String) : Bool := decide (sub.data <:+: s.data)

/-- `error.message?.includes(sub)` (false when `message` is absent). -/
def msgIncludes (e : JsError) (sub : String) : Bool :=
  match e.message with
  | some m => strIncludes m sub
  | none => false

/-- `error.status >= n` (false when `status` is absent, as NaN comparisons are). -/
def statusAtLeast (e : JsError) (n : Int) : Bool :=
  match e.status with
  | some s => decide (n ≤ s)
  | none => false

/-- `error.status < n` (false when `status` is absent). -/
def statusBelow (e : JsError) (n : Int) : Bool :=
  match e.status with
  | some s => decide (s < n)
  | none => false

/-- `defaultRetryCondition`, with the checks in source order. -/
def defaultRetryCondition (e : JsError) : Bool :=
  if e.code = some "NETWORK_ERROR" ∨ msgIncludes e "network" = true then true
  else if e.code = some "TIMEOUT" ∨ msgIncludes e "timeout" = true then true
  else if statusAtLeast e 500 = true ∧ statusBelow e 600 = true then true
  else if e.status = some 429 then true
  else if e.code = some "ECONNRESET" ∨ e.code = some "ECONNREFUSED" then true
  else if msgIncludes e "connection" = true ∨ msgIncludes e "Connection" = true then true
  else if (statusAtLeast e 400 = true ∧ statusBelow e 500 = true) ∧ ¬ e.status = some 429 then
    false
  else if msgIncludes e "auth" = true ∨ msgIncludes e "unauthorized" = true then false
  else true

/-- Disjunction of the six retryable checks of `defaultRetryCondition`, in
source order; whenever any of them holds the predicate returns `true` before
the client-error and auth checks are reached. -/
abbrev matchesRetryablePattern (e : JsError) : Prop :=
  (e.code = some "NETWORK_ERROR" ∨ msgIncludes e "network" = true) ∨
  (e.code = some "TIMEOUT" ∨ msgIncludes e "timeout" = true) ∨
  (statusAtLeast e 500 = true ∧ statusBelow e 600 = true) ∨
  e.status = some 429 ∨
  (e.code = some "ECONNRESET" ∨ e.code = some "ECONNREFUSED") ∨
  (msgIncludes e "connection" = true ∨ msgIncludes e "Connection" = true)

/-! ## Circuit breaker (retry-logic.ts lines 163-217) -/

/-- The last element of a list of clock values, or `d` for the empty list. -/
def lastTimeD (d : Nat) : List Nat → Nat
  | [] => d
  | t :: ts => lastTimeD t ts

inductive CBState
  | closed
  | opened
  | halfOpen
deriving DecidableEq, Repr

/-- The mutable fields and constructor configuration of `CircuitBreaker`. -/
structure CircuitBreaker where
  failures : Nat
  lastFailureTime : Nat
  state : CBState
  failureThreshold : Nat
  timeout : Nat
deriving DecidableEq, Repr

/-- A fresh breaker: `failures = 0`, `lastFailureTime = 0`, state CLOSED. -/
def CircuitBreaker.init (failureThreshold timeout : Nat) : CircuitBreaker :=
  ⟨0, 0, .closed, failureThreshold, timeout⟩

/-- What `execute` throws: the synthetic `RetryableError('Circuit breaker is
OPEN', false)`, or the underlying operation's error passed through. -/
inductive CBError (ε : Type)
  | circuitOpenErr
  | wrapped (e : ε)
deriving DecidableEq, Repr

def CircuitBreaker.onSuccess (cb : CircuitBreaker) : CircuitBreaker :=
  { cb with failures := 0, state := .closed }

def CircuitBreaker.onFailure (cb : CircuitBreaker) (now : Nat) : CircuitBreaker :=
  let cb' := { cb with failures := cb.failures + 1, lastFailureTime := now }
  if cb.failureThreshold ≤ cb'.failures then { cb' with state := .opened } else cb'

/-- The OPEN-state guard at the top of `execute`: `none` means the call is
rejected with the synthetic error; `some cb'` is the breaker state under which
the operation is invoked (HALF_OPEN when the cooldown has elapsed). -/
def CircuitBreaker.gate (cb : CircuitBreaker) (now : Nat) : Option CircuitBreaker :=
  if cb.state = .opened then
    if now - cb.lastFailureTime < cb.timeout then none
    else some { cb with state := .halfOpen }
  else some cb

/-- The `try { await operation() } catch` body of `execute`. -/
def runTrial {α ε : Type} (cb : CircuitBreaker) (now : Nat) (op : Except ε α) :
    Except (CBError ε) α × CircuitBreaker × Nat :=
  match op with
  | .ok v => (.ok v, cb.onSuccess, 1)
  | .error e => (.error (.wrapped e), cb.onFailure now, 1)

/-- `CircuitBreaker.execute` at clock `now`, where `op` is the outcome the
wrapped operation would produce if invoked.  The final `Nat` is the number of
times the operation was invoked (0 when rejected while OPEN). -/
def CircuitBreaker.execute {α ε : Type} (cb : CircuitBreaker) (now : Nat)
    (op : Except ε α) : Except (CBError ε) α × CircuitBreaker × Nat :=
  match cb.gate now with
  | none => (.error .circuitOpenErr, cb, 0)
  | some cb' => runTrial cb' now op

/-- `getState()`: builds the snapshot object from the fields; no assignment
occurs, so the breaker state is returned unchanged. -/
def CircuitBreaker.getState (cb : CircuitBreaker) :
    (CBState × Nat × Nat) × CircuitBreaker :=
  ((cb.state, cb.failures, cb.lastFailureTime), cb)

/-- Iterate `execute` with a failing operation at the given clock values. -/
def applyFailures (e : Unit) (cb : CircuitBreaker) (times : List Nat) : CircuitBreaker :=
  times.foldl (fun c t => (c.execute t (.error e : Except Unit Unit)).2.1) cb

/-- States reachable from a fresh breaker through `execute` calls. -/
inductive ReachableCB (ft tmo : Nat) : CircuitBreaker → Prop
  | init : ReachableCB ft tmo (CircuitBreaker.init ft tmo)
  | step (cb : CircuitBreaker) (now : Nat) (op : Except Unit Unit) :
      ReachableCB ft tmo cb → ReachableCB ft tmo (cb.execute now op).2.1

/-! ## Gateway (google-books.ts lines 146-231) -/

/-- `s.slice(0, n)` over code points. -/
def jsSlice (s : String) (n : Nat) : String := String.mk (s.data.take n)

/-- `s.trim()`: strip leading and trailing whitespace. -/
def strTrim (s : String) : String :=
  String.mk (((s.data.dropWhile Char.isWhitespace).reverse.dropWhile
    Char.isWhitespace).reverse)

/-- `sanitizedQuery` in `searchBooks`. -/
def sanitizeQuery (q : String) : String := jsSlice (strTrim q) 100

/-- `Math.min(Math.max(1, maxResults), 40)`. -/
def validateMaxResults (m : Int) : Int := min (max 1 m) 40

/-- The cache key built by `searchBooks`. -/
def searchCacheKey (q : String) (m : Int) : String :=
  "search:" ++ sanitizeQuery q ++ ":" ++ toString (validateMaxResults m)

/-- The guard and key construction at the head of `getBookDetails`: an empty
id is falsy and rejected with `Error('Invalid book ID provided')`; otherwise
the key is `book:` followed by the trimmed id capped at 50 characters. -/
def getBookDetailsKey (bookId : String) : Except String String :=
  if bookId = "" then .error "Invalid book ID provided"
  else .ok ("book:" ++ jsSlice (strTrim bookId) 50)

/-- The `catch` fallback shared by `searchBooks` and `getBookDetails`: on a
terminal failure `err`, re-read the cache; a (necessarily fresh) hit is
returned, otherwise the error is re-thrown. -/
def catchFallback {α ε : Type} (now : Nat) (c : Cache α) (cacheKey : String)
    (err : ε) : Except ε α × Cache α :=
  let r := getCachedResponse now c cacheKey
  match r.1 with
  | some cached => (.ok cached, r.2)
  | none => (.error err, r.2)

/-- `getRateLimitStatus()`: `{ requestCount: rateLimiter.getRequestCount(),
cacheSize: requestCache.size }`, returning the resulting limiter and cache. -/
def getRateLimitStatus {α : Type} (rl : RateLimiter) (c : Cache α) (now : Nat) :
    (Nat × Nat) × RateLimiter × Cache α :=
  let rc := getRequestCount rl now
  ((rc.1, c.length), rc.2, c)

/-! ## Helper lemmas: retry loop -/

/-- Unfolding equation for one loop iteration within bounds. -/
theorem retryLoop_eq_of_le {α ε : Type} (op : Nat → Except ε α) (cond : ε → Bool)
    (n : Nat) (le : Option ε) (a : Nat) (h : a ≤ n) :
    retryLoop op cond n le a =
      (match op a with
       | .ok value => (.ok value, 1, 0)
       | .error e =>
         if a = n then (.error (some e), 1, 0)
         else if cond e then
           let r := retryLoop op cond n (some e) (a + 1)
           (r.1, r.2.1 + 1, r.2.2 + 1)
         else (.error (some e), 1, 0)) := by
  rw [retryLoop]
  simp [h]

/-- If every attempt from `a` to `n` fails and attempts before `n` are
retryable, the loop performs `n - a + 1` invocations, `n - a` retry callbacks,
and throws the error of attempt `n` itself. -/
theorem retryLoop_all_fail {α ε : Type} (op : Nat → Except ε α) (cond : ε → Bool)
    (n : Nat) (eOf : Nat → ε) :
    ∀ (a : Nat) (le : Option ε), a ≤ n →
      (∀ i, a ≤ i → i ≤ n → op i = .error (eOf i)) →
      (∀ i, a ≤ i → i < n → cond (eOf i) = true) →
      retryLoop op cond n le a = (.error (some (eOf n)), n + 1 - a, n - a) := by
  suffices h : ∀ (k a : Nat) (le : Option ε), n - a = k → a ≤ n →
      (∀ i, a ≤ i → i ≤ n → op i = .error (eOf i)) →
      (∀ i, a ≤ i → i < n → cond (eOf i) = true) →
      retryLoop op cond n le a = (.error (some (eOf n)), n + 1 - a, n - a) by
    intro a le ha hf hc
    exact h (n - a) a le rfl ha hf hc
  intro k
  induction k with
  | zero =>
    intro a le hk ha hfail hcond
    have han : a = n := by omega
    subst han
    rw [retryLoop_eq_of_le op cond a le a (le_refl a)]
    rw [hfail a (le_refl a) (le_refl a)]
    simp
  | succ k ih =>
    intro a le hk ha hfail hcond
    have hlt : a < n := by omega
    rw [retryLoop_eq_of_le op cond n le a ha]
    rw [hfail a (le_refl a) ha]
    have hne : ¬ a = n := by omega
    dsimp only
    rw [if_neg hne, if_pos (hcond a (le_refl a) hlt)]
    rw [ih (a + 1) (some (eOf a)) (by omega) (by omega)
      (fun i h1 h2 => hfail i (by omega) h2)
      (fun i h1 h2 => hcond i (by omega) h2)]
    have h1 : n + 1 - (a + 1) + 1 = n + 1 - a := by omega
    have h2 : n - (a + 1) + 1 = n - a := by omega
    simp only []
    rw [h1, h2]

/-- If attempts `a .. n-1` fail retryably and attempt `n` succeeds, the loop
returns the success value after `n - a + 1` invocations and `n - a` retries. -/
theorem retryLoop_succeeds_after {α ε : Type} (op : Nat → Except ε α) (cond : ε → Bool)
    (n : Nat) (eOf : Nat → ε) (v : α) (hok : op n = .ok v) :
    ∀ (a : Nat) (le : Option ε), a ≤ n →
      (∀ i, a ≤ i → i < n → op i = .error (eOf i) ∧ cond (eOf i) = true) →
      retryLoop op cond n le a = (.ok v, n + 1 - a, n - a) := by
  suffices h : ∀ (k a : Nat) (le : Option ε), n - a = k → a ≤ n →
      (∀ i, a ≤ i → i < n → op i = .error (eOf i) ∧ cond (eOf i) = true) →
      retryLoop op cond n le a = (.ok v, n + 1 - a, n - a) by
    intro a le ha hf
    exact h (n - a) a le rfl ha hf
  intro k
  induction k with
  | zero =>
    intro a le hk ha hfail
    have han : a = n := by omega
    subst han
    rw [retryLoop_eq_of_le op cond a le a (le_refl a), hok]
    simp
  | succ k ih =>
    intro a le hk ha hfail
    have hlt : a < n := by omega
    rw [retryLoop_eq_of_le op cond n le a ha]
    rw [(hfail a (le_refl a) hlt).1]
    have hne : ¬ a = n := by omega
    dsimp only
    rw [if_neg hne, if_pos (hfail a (le_refl a) hlt).2]
    rw [ih (a + 1) (some (eOf a)) (by omega) (by omega)
      (fun i h1 h2 => hfail i (by omega) h2)]
    have h1 : n + 1 - (a + 1) + 1 = n + 1 - a := by omega
    have h2 : n - (a + 1) + 1 = n - a := by omega
    simp only []
    rw [h1, h2]

/-! ## Claims C3 and C8: retry executor accounting and error propagation -/

/-- Claim C3: with `maxAttempts = n` attempts: an operation that fails with a
retryable error on the first `n - 1` attempts and then succeeds makes
`withRetry` return the success value with `onRetry` fired exactly `n - 1`
times; an operation that always fails retryably is invoked exactly `n` times
and the final error is raised; an operation whose first failure is
non-retryable is invoked exactly once, with zero retries and zero `onRetry`
firings. -/
theorem claim_C3_retry_attempt_accounting {α ε : Type} :
    (∀ (op : Nat → Except ε α) (cond : ε → Bool) (n : Nat) (eOf : Nat → ε) (v : α),
      1 ≤ n → op n = .ok v →
      (∀ i, 1 ≤ i → i < n → op i = .error (eOf i) ∧ cond (eOf i) = true) →
      withRetry op cond n = (.ok v, n, n - 1)) ∧
    (∀ (op : Nat → Except ε α) (cond : ε → Bool) (n : Nat) (eOf : Nat → ε),
      1 ≤ n →
      (∀ i, 1 ≤ i → i ≤ n → op i = .error (eOf i)) →
      (∀ i, 1 ≤ i → i < n → cond (eOf i) = true) →
      withRetry op cond n = (.error (some (eOf n)), n, n - 1)) ∧
    (∀ (op : Nat → Except ε α) (cond : ε → Bool) (n : Nat) (e : ε),
      1 ≤ n → op 1 = .error e → cond e = false →
      withRetry op cond n = (.error (some e), 1, 0)) := by
  refine ⟨?_, ?_, ?_⟩
  · intro op cond n eOf v hn hok hfail
    have h := retryLoop_succeeds_after op cond n eOf v hok 1 none hn hfail
    have h1 : n + 1 - 1 = n := by omega
    rw [withRetry, h, h1]
  · intro op cond n eOf hn hfail hcond
    have h := retryLoop_all_fail op cond n eOf 1 none hn hfail hcond
    have h1 : n + 1 - 1 = n := by omega
    rw [withRetry, h, h1]
  · intro op cond n e hn herr hcond
    rw [withRetry, retryLoop_eq_of_le op cond n none 1 hn, herr]
    dsimp only
    by_cases h1 : 1 = n
    · rw [if_pos h1]
    · rw [if_neg h1, hcond]
      simp

/-- Claim C3 witness: a concrete run with `maxAttempts = 3` failing twice
retryably then succeeding, one always failing, and one failing
non-retryably at once. -/
theorem claim_C3_witness :
    withRetry (fun i => if i < 3 then Except.error i else Except.ok "yay")
      (fun _ => true) 3 = (.ok "yay", 3, 2) ∧
    withRetry (fun i => (Except.error i : Except Nat String)) (fun _ => true) 3 =
      (.error (some 3), 3, 2) ∧
    withRetry (fun i => (Except.error i : Except Nat String)) (fun _ => false) 3 =
      (.error (some 1), 1, 0) := by
  refine ⟨?_, ?_, ?_⟩
  · exact claim_C3_retry_attempt_accounting.1
      (fun i => if i < 3 then Except.error i else Except.ok "yay") (fun _ => true)
      3 (fun i => i) "yay" (by omega) rfl
      (fun i h1 h2 => ⟨by simp [show i < 3 from h2], rfl⟩)
  · exact claim_C3_retry_attempt_accounting.2.1
      (fun i => (Except.error i : Except Nat String)) (fun _ => true)
      3 (fun i => i) (by omega) (fun i h1 h2 => rfl) (fun i h1 h2 => rfl)
  · exact claim_C3_retry_attempt_accounting.2.2
      (fun i => (Except.error i : Except Nat String)) (fun _ => false)
      3 1 (by omega) rfl rfl

/-- Claim C8: when attempts are exhausted, `withRetry` re-raises the very
error produced by the final attempt (and a non-retryable failure re-raises
the very error caught), never a substituted failure value; the attempt
counter appears only in the returned accounting, not in the error. -/
theorem claim_C8_raises_original_error {α ε : Type} :
    (∀ (op : Nat → Except ε α) (cond : ε → Bool) (n : Nat) (eOf : Nat → ε),
      1 ≤ n →
      (∀ i, 1 ≤ i → i ≤ n → op i = .error (eOf i)) →
      (∀ i, 1 ≤ i → i < n → cond (eOf i) = true) →
      (withRetry op cond n).1 = .error (some (eOf n))) ∧
    (∀ (op : Nat → Except ε α) (cond : ε → Bool) (n : Nat) (e : ε),
      1 ≤ n → op 1 = .error e → cond e = false →
      (withRetry op cond n).1 = .error (some e)) := by
  constructor
  · intro op cond n eOf hn hfail hcond
    have h := retryLoop_all_fail op cond n eOf 1 none hn hfail hcond
    rw [withRetry, h]
  · intro op cond n e hn herr hcond
    rw [withRetry, retryLoop_eq_of_le op cond n none 1 hn, herr]
    dsimp only
    by_cases h1 : 1 = n
    · rw [if_pos h1]
    · rw [if_neg h1, hcond]
      simp

/-- Claim C8 witness: the error value surfaced after exhaustion at
`maxAttempts = 2` is exactly the final attempt's error. -/
theorem claim_C8_witness :
    (withRetry (fun i => (Except.error (toString i) : Except String Nat))
      (fun _ => true) 2).1 = .error (some "2") := by
  exact claim_C8_raises_original_error.1
    (fun i => (Except.error (toString i) : Except String Nat)) (fun _ => true)
    2 (fun i => toString i) (by omega) (fun i h1 h2 => rfl) (fun i h1 h2 => rfl)

/-! ## Claim C5: the default retry predicate -/

/-- Claim C5 counterexample: the error `{ message: 'network error',
status: 404 }` is a client error (4xx, not 429), for which the claim demands
`false`, yet `defaultRetryCondition` returns `true` because the
network-message check runs before the client-error check. -/
theorem claim_C5_counterexample :
    statusAtLeast ⟨none, some "network error", some 404⟩ 400 = true ∧
    statusBelow ⟨none, some "network error", some 404⟩ 500 = true ∧
    (⟨none, some "network error", some 404⟩ : JsError).status ≠ some 429 ∧
    defaultRetryCondition ⟨none, some "network error", some 404⟩ = true := by
  refine ⟨by decide, by decide, by decide, by decide⟩

set_option maxHeartbeats 1600000 in
/-- Claim C5 amended: `defaultRetryCondition` returns `true` for every error
matching a retryable pattern (network/connection code or message, timeout,
5xx status, 429); for errors matching none of those patterns it returns
`false` on client errors (4xx other than 429) and on auth-flavoured messages
(`auth`/`unauthorized`).  The original claim's `false` half only holds for
errors matching no retryable pattern. -/
theorem claim_C5_amended_classification (e : JsError) :
    (matchesRetryablePattern e → defaultRetryCondition e = true) ∧
    (¬ matchesRetryablePattern e →
      (statusAtLeast e 400 = true → statusBelow e 500 = true → e.status ≠ some 429 →
        defaultRetryCondition e = false) ∧
      (¬ (statusAtLeast e 400 = true ∧ statusBelow e 500 = true ∧ e.status ≠ some 429) →
        (msgIncludes e "auth" = true ∨ msgIncludes e "unauthorized" = true) →
        defaultRetryCondition e = false)) := by
  refine ⟨?_, ?_⟩
  · intro hmatch
    unfold defaultRetryCondition
    split_ifs with h1 h2 h3 h4 h5 h6 <;> first | rfl | tauto
  · intro hnone
    simp only [matchesRetryablePattern, not_or] at hnone
    constructor
    · intro h400 h500 h429
      unfold defaultRetryCondition
      split_ifs with h1 h2 h3 h4 h5 h6 h7 <;> first | rfl | tauto
    · intro hnotclient hauth
      unfold defaultRetryCondition
      split_ifs with h1 h2 h3 h4 h5 h6 h7 <;> first | rfl | tauto

/-- Claim C5 witness: a 503 server error is retried; a plain 404 with no
retryable pattern is not; an `unauthorized` message with no status is not. -/
theorem claim_C5_witness :
    defaultRetryCondition ⟨none, none, some 503⟩ = true ∧
    defaultRetryCondition ⟨none, some "Not Found", some 404⟩ = false ∧
    defaultRetryCondition ⟨none, some "unauthorized", none⟩ = false := by
  refine ⟨?_, ?_, ?_⟩
  · exact (claim_C5_amended_classification ⟨none, none, some 503⟩).1 (by decide)
  · exact ((claim_C5_amended_classification ⟨none, some "Not Found", some 404⟩).2
      (by decide)).1 (by decide) (by decide) (by decide)
  · exact ((claim_C5_amended_classification ⟨none, some "unauthorized", none⟩).2
      (by decide)).2 (by decide) (by decide)

/-! ## Claim C9: gateway parameter normalization -/

/-- Claim C9 counterexample: `getBookDetails('')` rejects the empty (benign)
identifier with `Error('Invalid book ID provided')` instead of normalizing
it, so the gateway does not accept every malformed-but-benign input. -/
theorem claim_C9_counterexample :
    getBookDetailsKey "" = .error "Invalid book ID provided" := rfl

/-- Claim C9 amended: queries are trimmed and capped at 100 characters,
result counts are clamped into `[1, 40]`, identifiers are trimmed and capped
at 50 characters, and the cache key is the operation name plus normalized
parameters (`search:dune:10` for query `dune`, maxResults 10) — except that
`getBookDetails` rejects an empty identifier with `Invalid book ID provided`
rather than normalizing it. -/
theorem claim_C9_amended_normalization :
    (∀ q : String, (sanitizeQuery q).length ≤ 100 ∧
      sanitizeQuery q = jsSlice (strTrim q) 100) ∧
    (∀ m : Int, 1 ≤ validateMaxResults m ∧ validateMaxResults m ≤ 40 ∧
      (1 ≤ m → m ≤ 40 → validateMaxResults m = m)) ∧
    searchCacheKey "dune" 10 = "search:dune:10" ∧
    (∀ (q : String) (m : Int), searchCacheKey q m =
      "search:" ++ sanitizeQuery q ++ ":" ++ toString (validateMaxResults m)) ∧
    (∀ bookId : String, bookId ≠ "" →
      getBookDetailsKey bookId = .ok ("book:" ++ jsSlice (strTrim bookId) 50) ∧
      (jsSlice (strTrim bookId) 50).length ≤ 50) ∧
    getBookDetailsKey "" = .error "Invalid book ID provided" := by
  have hlen : ∀ (l : List Char) (n : Nat), (String.mk (l.take n)).length ≤ n := by
    intro l n
    show (l.take n).length ≤ n
    simp [List.length_take]
  refine ⟨?_, ?_, rfl, fun q m => rfl, ?_, rfl⟩
  · intro q
    exact ⟨hlen (strTrim q).data 100, rfl⟩
  · intro m
    refine ⟨?_, ?_, ?_⟩ <;> (simp [validateMaxResults]; try omega)
  · intro bookId hne
    exact ⟨by rw [getBookDetailsKey, if_neg hne], hlen (strTrim bookId).data 50⟩

/-- Claim C9 witness: concrete normalizations for a padded query, an
oversized count, and a padded identifier. -/
theorem claim_C9_witness :
    (sanitizeQuery "  dune ").length ≤ 100 ∧
    (1 ≤ validateMaxResults 1000 ∧ validateMaxResults 1000 ≤ 40) ∧
    getBookDetailsKey "  xyz  " = .ok "book:xyz" := by
  refine ⟨(claim_C9_amended_normalization.1 "  dune ").1,
    ⟨(claim_C9_amended_normalization.2.1 1000).1,
     (claim_C9_amended_normalization.2.1 1000).2.1⟩, ?_⟩
  have h := (claim_C9_amended_normalization.2.2.2.2.1 "  xyz  " (by decide)).1
  rw [h]
  rfl

/-! ## Claim C6: stale-cache fallback on terminal failure -/

/-- Claim C6 counterexample: with a stale entry (inserted at time 0, read at
time 300000 = TTL) under the failing key, the gateway's catch path propagates
the error and deletes the stale entry instead of returning it as a degraded
fallback. -/
theorem claim_C6_counterexample :
    CACHE_DURATION ≤ 300000 - (0 : Nat) ∧
    mapGet ([("search:dune:10", ⟨7, 0⟩)] : Cache Nat) "search:dune:10" = some ⟨7, 0⟩ ∧
    catchFallback 300000 ([("search:dune:10", ⟨(7 : Nat), 0⟩)] : Cache Nat)
      "search:dune:10" "upstream failure" =
      (.error "upstream failure", ([] : Cache Nat)) := by
  refine ⟨by decide, by decide, rfl⟩

/-- Claim C6 amended: on terminal failure the gateway re-reads the cache with
the same freshness rule as a normal lookup, so only a fresh entry is ever
returned as fallback; a stale or missing entry leads to the original error
propagating unchanged (the stale entry being deleted as a side effect). -/
theorem claim_C6_amended_fallback {α ε : Type} (now : Nat) (c : Cache α)
    (key : String) (err : ε) :
    (∀ e : CacheEntry α, mapGet c key = some e → CACHE_DURATION ≤ now - e.timestamp →
      catchFallback now c key err = (.error err, mapDelete c key)) ∧
    (mapGet c key = none → catchFallback now c key err = (.error err, mapDelete c key)) ∧
    (∀ e : CacheEntry α, mapGet c key = some e → now - e.timestamp < CACHE_DURATION →
      catchFallback now c key err = (.ok e.data, c)) := by
  refine ⟨?_, ?_, ?_⟩
  · intro e he hstale
    unfold catchFallback getCachedResponse
    rw [he]
    dsimp only
    rw [if_neg (by omega)]
  · intro he
    unfold catchFallback getCachedResponse
    rw [he]
  · intro e he hfresh
    unfold catchFallback getCachedResponse
    rw [he]
    dsimp only
    rw [if_pos hfresh]

/-- Claim C6 witness: a fresh entry is returned by the catch path; the claim
theorem applied at a concrete cache. -/
theorem claim_C6_witness :
    catchFallback 10 ([("book:xyz", ⟨(3 : Nat), 5⟩)] : Cache Nat) "book:xyz" "boom" =
      (.ok 3, [("book:xyz", ⟨3, 5⟩)]) := by
  exact (claim_C6_amended_fallback 10 ([("book:xyz", ⟨(3 : Nat), 5⟩)] : Cache Nat)
    "book:xyz" "boom").2.2 ⟨3, 5⟩ (by decide) (by decide)

/-! ## Claims C1 and C10: circuit breaker lifecycle and invariant -/

/-- In any state other than OPEN, `execute` goes straight to the trial. -/
theorem execute_not_opened {α ε : Type} (cb : CircuitBreaker) (now : Nat)
    (op : Except ε α) (h : ¬ cb.state = .opened) :
    cb.execute now op = runTrial cb now op := by
  unfold CircuitBreaker.execute CircuitBreaker.gate
  rw [if_neg h]

/-- While OPEN and within the cooldown, `execute` rejects without invoking. -/
theorem execute_opened_rejected {α ε : Type} (cb : CircuitBreaker) (now : Nat)
    (op : Except ε α) (ho : cb.state = .opened)
    (htm : now - cb.lastFailureTime < cb.timeout) :
    cb.execute now op = (.error .circuitOpenErr, cb, 0) := by
  unfold CircuitBreaker.execute CircuitBreaker.gate
  rw [if_pos ho, if_pos htm]

/-- While OPEN with the cooldown elapsed, `execute` runs the trial from the
HALF_OPEN state. -/
theorem execute_opened_elapsed {α ε : Type} (cb : CircuitBreaker) (now : Nat)
    (op : Except ε α) (ho : cb.state = .opened)
    (htm : ¬ now - cb.lastFailureTime < cb.timeout) :
    cb.execute now op =
      runTrial ⟨cb.failures, cb.lastFailureTime, .halfOpen, cb.failureThreshold,
        cb.timeout⟩ now op := by
  unfold CircuitBreaker.execute CircuitBreaker.gate
  rw [if_pos ho, if_neg htm]

/-- `onSuccess` in explicit form. -/
theorem onSuccess_eq (cb : CircuitBreaker) :
    cb.onSuccess = ⟨0, cb.lastFailureTime, .closed, cb.failureThreshold, cb.timeout⟩ :=
  rfl

/-- `onFailure` strictly below the threshold: count and stamp, stay put. -/
theorem onFailure_below (cb : CircuitBreaker) (now : Nat)
    (h : cb.failures + 1 < cb.failureThreshold) :
    cb.onFailure now =
      ⟨cb.failures + 1, now, cb.state, cb.failureThreshold, cb.timeout⟩ := by
  unfold CircuitBreaker.onFailure
  dsimp only
  rw [if_neg (by omega)]

/-- `onFailure` reaching the threshold: count, stamp, trip OPEN. -/
theorem onFailure_reach (cb : CircuitBreaker) (now : Nat)
    (h : cb.failureThreshold ≤ cb.failures + 1) :
    cb.onFailure now =
      ⟨cb.failures + 1, now, .opened, cb.failureThreshold, cb.timeout⟩ := by
  unfold CircuitBreaker.onFailure
  dsimp only
  rw [if_pos (by omega)]

/-- Consecutive failing calls strictly below the threshold keep the breaker
CLOSED, counting failures and stamping the last failure time. -/
theorem applyFailures_below_threshold (e : Unit) :
    ∀ (ts : List Nat) (cb : CircuitBreaker), cb.state = .closed →
      cb.failures + ts.length < cb.failureThreshold →
      applyFailures e cb ts =
        ⟨cb.failures + ts.length, lastTimeD cb.lastFailureTime ts, cb.state,
          cb.failureThreshold, cb.timeout⟩ := by
  intro ts
  induction ts with
  | nil =>
    intro cb hc hlt
    simp [applyFailures, lastTimeD]
  | cons t ts ih =>
    intro cb hc hlt
    simp only [List.length_cons] at hlt
    have h1 : applyFailures e cb (t :: ts) =
        applyFailures e ((cb.execute t (.error e : Except Unit Unit)).2.1) ts := rfl
    rw [h1, execute_not_opened cb t (.error e : Except Unit Unit)
      (by rw [hc]; intro hcontra; cases hcontra)]
    have h2 : (runTrial cb t (.error e : Except Unit Unit)).2.1 = cb.onFailure t := rfl
    rw [h2, onFailure_below cb t (by omega)]
    rw [ih ⟨cb.failures + 1, t, cb.state, cb.failureThreshold, cb.timeout⟩ hc
      (by dsimp only; omega)]
    dsimp only
    have h3 : cb.failures + 1 + ts.length = cb.failures + (ts.length + 1) := by omega
    rw [h3, hc]
    rfl

/-- Claim C1: the breaker starts CLOSED; after `failureThreshold` consecutive
failures it is OPEN with `failures = failureThreshold` and the last failure
time stamped; while `now - lastFailureTime < timeout` the next `execute`
raises the synthetic circuit-open error with zero operation invocations and
unchanged state; once the timeout has elapsed the gate moves to HALF_OPEN and
the operation is invoked: success yields CLOSED with `failures = 0`, failure
yields OPEN again. -/
theorem claim_C1_circuit_breaker_lifecycle :
    (∀ (ft tmo : Nat) (e : Unit) (ts : List Nat) (t : Nat),
      1 ≤ ft → ts.length = ft - 1 →
      applyFailures e (CircuitBreaker.init ft tmo) (ts ++ [t]) =
        ⟨ft, t, .opened, ft, tmo⟩) ∧
    (∀ (cb : CircuitBreaker) (now : Nat) (α ε : Type) (op : Except ε α),
      cb.state = .opened → now - cb.lastFailureTime < cb.timeout →
      cb.execute now op = (.error .circuitOpenErr, cb, 0)) ∧
    (∀ (cb : CircuitBreaker) (now : Nat),
      cb.state = .opened → ¬ now - cb.lastFailureTime < cb.timeout →
      cb.gate now = some ⟨cb.failures, cb.lastFailureTime, .halfOpen,
        cb.failureThreshold, cb.timeout⟩) ∧
    (∀ (cb : CircuitBreaker) (now : Nat) (α ε : Type) (v : α),
      cb.state = .opened → ¬ now - cb.lastFailureTime < cb.timeout →
      cb.execute now (.ok v : Except ε α) =
        (.ok v, ⟨0, cb.lastFailureTime, .closed, cb.failureThreshold, cb.timeout⟩, 1)) ∧
    (∀ (cb : CircuitBreaker) (now : Nat) (α ε : Type) (er : ε),
      cb.state = .opened → ¬ now - cb.lastFailureTime < cb.timeout →
      cb.failureThreshold ≤ cb.failures →
      cb.execute now (.error er : Except ε α) =
        (.error (.wrapped er),
          ⟨cb.failures + 1, now, .opened, cb.failureThreshold, cb.timeout⟩, 1)) := by
  refine ⟨?_, ?_, ?_, ?_, ?_⟩
  · intro ft tmo e ts t hft hlen
    unfold applyFailures
    rw [List.foldl_append]
    have hbelow := applyFailures_below_threshold e ts (CircuitBreaker.init ft tmo)
      rfl (by simp [CircuitBreaker.init]; omega)
    unfold applyFailures at hbelow
    rw [hbelow]
    simp only [List.foldl_cons, List.foldl_nil]
    rw [execute_not_opened ⟨(CircuitBreaker.init ft tmo).failures + ts.length,
        lastTimeD (CircuitBreaker.init ft tmo).lastFailureTime ts,
        (CircuitBreaker.init ft tmo).state, (CircuitBreaker.init ft tmo).failureThreshold,
        (CircuitBreaker.init ft tmo).timeout⟩ t (.error e : Except Unit Unit)
      (by intro hcontra; cases hcontra)]
    have h2 : ∀ cb' : CircuitBreaker,
        (runTrial cb' t (.error e : Except Unit Unit)).2.1 = cb'.onFailure t :=
      fun _ => rfl
    rw [h2, onFailure_reach _ t (by simp [CircuitBreaker.init]; omega)]
    simp only [CircuitBreaker.init]
    congr 1
    omega
  · intro cb now α ε op ho htm
    exact execute_opened_rejected cb now op ho htm
  · intro cb now ho htm
    unfold CircuitBreaker.gate
    rw [if_pos ho, if_neg htm]
  · intro cb now α ε v ho htm
    rw [execute_opened_elapsed cb now (.ok v : Except ε α) ho htm]
    rfl
  · intro cb now α ε er ho htm hth
    rw [execute_opened_elapsed cb now (.error er : Except ε α) ho htm]
    show (Except.error (CBError.wrapped er),
      CircuitBreaker.onFailure ⟨cb.failures, cb.lastFailureTime, .halfOpen,
        cb.failureThreshold, cb.timeout⟩ now, 1) = _
    rw [onFailure_reach ⟨cb.failures, cb.lastFailureTime, .halfOpen,
      cb.failureThreshold, cb.timeout⟩ now (by dsimp only; omega)]

/-- Claim C1 witness: threshold 3, failures at times 10, 20, 30 trip the
breaker OPEN; a call at 100 is rejected without invocation; at 70000 the gate
is HALF_OPEN; success closes with zero failures; failure re-opens. -/
theorem claim_C1_witness :
    applyFailures () (CircuitBreaker.init 3 60000) [10, 20, 30] =
      ⟨3, 30, .opened, 3, 60000⟩ ∧
    CircuitBreaker.execute ⟨3, 30, .opened, 3, 60000⟩ 100
      (Except.ok (5 : Nat) : Except Unit Nat) =
      (.error .circuitOpenErr, ⟨3, 30, .opened, 3, 60000⟩, 0) ∧
    CircuitBreaker.gate ⟨3, 30, .opened, 3, 60000⟩ 70000 =
      some ⟨3, 30, .halfOpen, 3, 60000⟩ ∧
    CircuitBreaker.execute ⟨3, 30, .opened, 3, 60000⟩ 70000
      (Except.ok (5 : Nat) : Except Unit Nat) =
      (.ok 5, ⟨0, 30, .closed, 3, 60000⟩, 1) ∧
    CircuitBreaker.execute ⟨3, 30, .opened, 3, 60000⟩ 70000
      (Except.error () : Except Unit Nat) =
      (.error (.wrapped ()), ⟨4, 70000, .opened, 3, 60000⟩, 1) := by
  refine ⟨?_, ?_, ?_, ?_, ?_⟩
  · exact claim_C1_circuit_breaker_lifecycle.1 3 60000 () [10, 20] 30
      (by omega) (by decide)
  · exact claim_C1_circuit_breaker_lifecycle.2.1 ⟨3, 30, .opened, 3, 60000⟩ 100
      Nat Unit (Except.ok 5) rfl (by decide)
  · exact claim_C1_circuit_breaker_lifecycle.2.2.1 ⟨3, 30, .opened, 3, 60000⟩ 70000
      rfl (by decide)
  · exact claim_C1_circuit_breaker_lifecycle.2.2.2.1 ⟨3, 30, .opened, 3, 60000⟩ 70000
      Nat Unit 5 rfl (by decide)
  · exact claim_C1_circuit_breaker_lifecycle.2.2.2.2 ⟨3, 30, .opened, 3, 60000⟩ 70000
      Nat Unit () rfl (by decide) (by decide)

/-- Every reachable breaker keeps its configured threshold, and whenever it
is OPEN (or probing HALF_OPEN) it has recorded at least `failureThreshold`
failures. -/
theorem cb_reachable_invariant (ft tmo : Nat) (cb : CircuitBreaker)
    (h : ReachableCB ft tmo cb) :
    cb.failureThreshold = ft ∧
    ((cb.state = .opened ∨ cb.state = .halfOpen) → ft ≤ cb.failures) := by
  induction h with
  | init =>
    refine ⟨rfl, ?_⟩
    intro hor
    rcases hor with hc | hc <;> cases hc
  | step cb now op hr ih =>
    obtain ⟨hft, hinv⟩ := ih
    by_cases ho : cb.state = .opened
    · by_cases htm : now - cb.lastFailureTime < cb.timeout
      · rw [execute_opened_rejected cb now op ho htm]
        exact ⟨hft, hinv⟩
      · rw [execute_opened_elapsed cb now op ho htm]
        cases op with
        | ok v =>
          have hs : (runTrial ⟨cb.failures, cb.lastFailureTime, .halfOpen,
              cb.failureThreshold, cb.timeout⟩ now (.ok v : Except Unit Unit)).2.1 =
              ⟨0, cb.lastFailureTime, .closed, cb.failureThreshold, cb.timeout⟩ := rfl
          rw [hs]
          refine ⟨hft, ?_⟩
          intro hor
          rcases hor with hc | hc <;> cases hc
        | error er =>
          have hle : ft ≤ cb.failures := hinv (Or.inl ho)
          have hs : (runTrial ⟨cb.failures, cb.lastFailureTime, .halfOpen,
              cb.failureThreshold, cb.timeout⟩ now (.error er : Except Unit Unit)).2.1 =
              CircuitBreaker.onFailure ⟨cb.failures, cb.lastFailureTime, .halfOpen,
                cb.failureThreshold, cb.timeout⟩ now := rfl
          rw [hs, onFailure_reach ⟨cb.failures, cb.lastFailureTime, .halfOpen,
            cb.failureThreshold, cb.timeout⟩ now (by dsimp only; omega)]
          exact ⟨hft, fun _ => by dsimp only; omega⟩
    · rw [execute_not_opened cb now op ho]
      cases op with
      | ok v =>
        have hs : (runTrial cb now (.ok v : Except Unit Unit)).2.1 = cb.onSuccess := rfl
        rw [hs, onSuccess_eq cb]
        refine ⟨hft, ?_⟩
        intro hor
        rcases hor with hc | hc <;> cases hc
      | error er =>
        have hs : (runTrial cb now (.error er : Except Unit Unit)).2.1 =
            cb.onFailure now := rfl
        rw [hs]
        by_cases hth : cb.failureThreshold ≤ cb.failures + 1
        · rw [onFailure_reach cb now hth]
          exact ⟨hft, fun _ => by dsimp only; omega⟩
        · rw [onFailure_below cb now (by omega)]
          refine ⟨hft, ?_⟩
          intro hor
          have hx : ft ≤ cb.failures := hinv hor
          dsimp only
          omega

/-- Claim C10: in every state reachable from a fresh breaker via `execute`
calls, an OPEN state carries `failures ≥ failureThreshold`, so `getState`
never reports OPEN with fewer recorded failures than the threshold. -/
theorem claim_C10_open_implies_threshold (ft tmo : Nat) (cb : CircuitBreaker)
    (h : ReachableCB ft tmo cb) (hopen : (cb.getState).1.1 = .opened) :
    ft ≤ (cb.getState).1.2.1 := by
  exact (cb_reachable_invariant ft tmo cb h).2 (Or.inl hopen)

/-- Claim C10 witness: with threshold 1, one failing call reaches an OPEN
state whose snapshot records at least 1 failure. -/
theorem claim_C10_witness :
    1 ≤ ((((CircuitBreaker.init 1 100).execute 5
      (Except.error () : Except Unit Unit)).2.1.getState).1.2.1) := by
  exact claim_C10_open_implies_threshold 1 100 _
    (ReachableCB.step _ 5 (Except.error ()) ReachableCB.init) (by decide)

/-! ## Claim C7: observability surface -/

/-- Purging at a later clock value absorbs an earlier purge: the timestamps a
purge removes could never again be retained. -/
theorem purgeRequests_purgeRequests (timeWindow t1 t2 : Nat) (h : t1 ≤ t2)
    (l : List Nat) :
    purgeRequests timeWindow t2 (purgeRequests timeWindow t1 l) =
      purgeRequests timeWindow t2 l := by
  unfold purgeRequests
  rw [List.filter_filter]
  apply List.filter_congr
  intro a _
  by_cases h2 : t2 - a < timeWindow
  · have h1 : t1 - a < timeWindow := by omega
    simp [h1, h2]
  · simp [h2]

/-- Claim C7 counterexample: `getRequestCount` is not a pure read — at clock
60000 on a limiter holding the timestamp 0 with a 60000 window it reassigns
`requests` to the purged (empty) list, changing the limiter state. -/
theorem claim_C7_counterexample :
    (getRequestCount ⟨[0], 100, 60000⟩ 60000).2 ≠ ⟨[0], 100, 60000⟩ := by decide

/-- Claim C7 amended: `getState` is a pure snapshot of the breaker;
`getRateLimitStatus` leaves the cache untouched and returns
`(purged count, cache size)`, but it rewrites the limiter's request list to
the purged list — a mutation that only discards expired timestamps and is
invisible to every later (clock-monotone) limiter operation. -/
theorem claim_C7_amended_observability {α : Type} (rl : RateLimiter) (c : Cache α)
    (now : Nat) (cb : CircuitBreaker) :
    cb.getState = ((cb.state, cb.failures, cb.lastFailureTime), cb) ∧
    (getRateLimitStatus rl c now).2.2 = c ∧
    (getRateLimitStatus rl c now).1 =
      ((purgeRequests rl.timeWindow now rl.requests).length, c.length) ∧
    (getRateLimitStatus rl c now).2.1 =
      ⟨purgeRequests rl.timeWindow now rl.requests, rl.maxRequests, rl.timeWindow⟩ ∧
    (∀ t, now ≤ t →
      waitForPermissionStep (getRateLimitStatus rl c now).2.1 t =
        waitForPermissionStep rl t) ∧
    (∀ t, now ≤ t →
      (getRequestCount (getRateLimitStatus rl c now).2.1 t).1 =
        (getRequestCount rl t).1) := by
  refine ⟨rfl, rfl, rfl, rfl, ?_, ?_⟩
  · intro t ht
    show waitForPermissionStep
      ⟨purgeRequests rl.timeWindow now rl.requests, rl.maxRequests, rl.timeWindow⟩ t =
        waitForPermissionStep rl t
    unfold waitForPermissionStep
    dsimp only
    rw [purgeRequests_purgeRequests rl.timeWindow now t ht rl.requests]
  · intro t ht
    show (getRequestCount
      ⟨purgeRequests rl.timeWindow now rl.requests, rl.maxRequests, rl.timeWindow⟩ t).1 =
        (getRequestCount rl t).1
    unfold getRequestCount
    dsimp only
    rw [purgeRequests_purgeRequests rl.timeWindow now t ht rl.requests]

/-- Claim C7 witness: after a status read at clock 60, a permission pass at
clock 120 behaves exactly as it would have without the read. -/
theorem claim_C7_witness :
    waitForPermissionStep
      (getRateLimitStatus ⟨[0, 50], 2, 100⟩ ([] : Cache Nat) 60).2.1 120 =
      waitForPermissionStep ⟨[0, 50], 2, 100⟩ 120 := by
  exact (claim_C7_amended_observability ⟨[0, 50], 2, 100⟩ ([] : Cache Nat) 60
    (CircuitBreaker.init 3 60000)).2.2.2.2.1 120 (by omega)

/-! ## Claim C2: rate limiter sliding-window bound -/

/-- One permission pass in explicit form. -/
theorem waitStep_eq (requests : List Nat) (N W now : Nat) :
    waitForPermissionStep ⟨requests, N, W⟩ now =
      if N ≤ (purgeRequests W now requests).length then
        (⟨purgeRequests W now requests, N, W⟩, false)
      else (⟨purgeRequests W now requests ++ [now], N, W⟩, true) := rfl

/-- One `runAttempts` step. -/
theorem runAttempts_cons (rl : RateLimiter) (hist : List Nat) (now : Nat)
    (rest : List Nat) :
    runAttempts rl hist (now :: rest) =
      runAttempts (waitForPermissionStep rl now).1
        (if (waitForPermissionStep rl now).2 then hist ++ [now] else hist) rest := rfl

/-- The limiter's request list is always the purge (at the last attempt time)
of the full admission history, and the admission history never shows more
than `N` timestamps in any trailing window of width `W`. -/
theorem runAttempts_window_bound (N W : Nat) (hW : 0 < W) :
    ∀ (attempts : List Nat) (t0 : Nat) (hist : List Nat),
      List.Chain (fun a b => a ≤ b) t0 attempts →
      (∀ h ∈ hist, h ≤ t0) →
      (∀ t, windowCount W t hist ≤ N) →
      ∀ t, windowCount W t
        (runAttempts ⟨purgeRequests W t0 hist, N, W⟩ hist attempts).2 ≤ N := by
  intro attempts
  induction attempts with
  | nil =>
    intro t0 hist hchain hhist hwin t
    exact hwin t
  | cons now rest ih =>
    intro t0 hist hchain hhist hwin t
    rw [List.chain_cons] at hchain
    obtain ⟨hle, hchain'⟩ := hchain
    rw [runAttempts_cons, waitStep_eq]
    rw [purgeRequests_purgeRequests W t0 now hle hist]
    by_cases hfull : N ≤ (purgeRequests W now hist).length
    · rw [if_pos hfull]
      dsimp only
      exact ih now hist hchain' (fun h hh => le_trans (hhist h hh) hle) hwin t
    · rw [if_neg hfull]
      dsimp only
      have hstate : purgeRequests W now hist ++ [now] =
          purgeRequests W now (hist ++ [now]) := by
        unfold purgeRequests
        rw [List.filter_append]
        congr 1
        rw [List.filter_cons]
        have hnw : decide ((now : Nat) - now < W) = true := by
          rw [decide_eq_true_eq]
          omega
        rw [hnw]
        simp
      rw [hstate]
      have hwin' : ∀ t, windowCount W t (hist ++ [now]) ≤ N := by
        intro u
        unfold windowCount
        rw [List.countP_append]
        by_cases hin : now ≤ u ∧ u - now < W
        · have hcount : hist.countP (fun h => decide (h ≤ u ∧ u - h < W)) ≤
              hist.countP (fun time => decide (now - time < W)) := by
            apply List.countP_mono_left
            intro a ha hp
            simp only [decide_eq_true_eq] at hp ⊢
            have hat0 : a ≤ t0 := hhist a ha
            omega
          have hlenp : hist.countP (fun time => decide (now - time < W)) =
              (purgeRequests W now hist).length := by
            unfold purgeRequests
            rw [List.countP_eq_length_filter]
          have hone : List.countP (fun h => decide (h ≤ u ∧ u - h < W)) [now] ≤ 1 := by
            simp only [List.countP_cons, List.countP_nil]
            split_ifs <;> omega
          have : hist.countP (fun h => decide (h ≤ u ∧ u - h < W)) < N := by omega
          omega
        · have hzero : List.countP (fun h => decide (h ≤ u ∧ u - h < W)) [now] = 0 := by
            simp [List.countP_cons, hin]
          rw [hzero]
          have := hwin u
          unfold windowCount at this
          omega
      exact ih now (hist ++ [now]) hchain'
        (by
          intro h hh
          rcases List.mem_append.mp hh with hh' | hh'
          · exact le_trans (hhist h hh') hle
          · have hhe := List.mem_singleton.mp hh'
            omega)
        hwin' t

/-- Claim C2: starting from an empty limiter, for any nondecreasing sequence
of `waitForPermission` passes, no trailing window of width `W` ever contains
more than `N` granted timestamps; and a pass is granted (appending its
timestamp) exactly when, after purging, fewer than `N` timestamps remain. -/
theorem claim_C2_rate_limiter_window_bound (N W : Nat) (hW : 0 < W)
    (attempts : List Nat) (hmono : List.Chain (fun a b => a ≤ b) 0 attempts) :
    (∀ t, windowCount W t (runAttempts ⟨[], N, W⟩ [] attempts).2 ≤ N) ∧
    (∀ (rl : RateLimiter) (now : Nat),
      ((waitForPermissionStep rl now).2 = true ↔
        (purgeRequests rl.timeWindow now rl.requests).length < rl.maxRequests) ∧
      ((waitForPermissionStep rl now).2 = true →
        (waitForPermissionStep rl now).1.requests =
          purgeRequests rl.timeWindow now rl.requests ++ [now])) := by
  constructor
  · intro t
    have h := runAttempts_window_bound N W hW attempts 0 [] hmono
      (by intro h hh; cases hh) (by intro u; simp [windowCount]) t
    exact h
  · intro rl now
    unfold waitForPermissionStep
    dsimp only
    by_cases hfull : rl.maxRequests ≤ (purgeRequests rl.timeWindow now rl.requests).length
    · rw [if_pos hfull]
      constructor
      · constructor
        · intro hc
          cases hc
        · intro hc
          omega
      · intro hc
        cases hc
    · rw [if_neg hfull]
      constructor
      · constructor
        · intro _
          omega
        · intro _
          rfl
      · intro _
        rfl

/-- Claim C2 witness: `N = 2`, `W = 100`, passes at 0, 10, 20, 50, 120 grant
only 0, 10 and 120, and the window ending at 20 holds just 2 grants. -/
theorem claim_C2_witness :
    windowCount 100 20 (runAttempts ⟨[], 2, 100⟩ [] [0, 10, 20, 50, 120]).2 ≤ 2 := by
  exact (claim_C2_rate_limiter_window_bound 2 100 (by omega) [0, 10, 20, 50, 120]
    (by refine List.Chain.cons (by omega) (List.Chain.cons (by omega)
      (List.Chain.cons (by omega) (List.Chain.cons (by omega)
      (List.Chain.cons (by omega) List.Chain.nil)))))).1 20

/-! ## Claim C4: response cache contract -/

/-- In-place update: the updated binding is the first (and only) match. -/
theorem find?_update_self {α : Type} (key : String) (e : CacheEntry α) :
    ∀ c : Cache α, mapHasKey c key = true →
      (c.map (fun p => if p.1 = key then (key, e) else p)).find?
        (fun p => decide (p.1 = key)) = some (key, e) := by
  intro c
  induction c with
  | nil =>
    intro h
    simp [mapHasKey] at h
  | cons p rest ih =>
    intro h
    by_cases hp : p.1 = key
    · rw [List.map_cons, if_pos hp]
      exact List.find?_cons_of_pos _ (by simp)
    · rw [List.map_cons, if_neg hp]
      rw [List.find?_cons_of_neg _ (by simp [hp])]
      apply ih
      simp only [mapHasKey, List.any_cons, Bool.or_eq_true, decide_eq_true_eq] at h
      simp only [mapHasKey]
      tauto

/-- Appending a fresh binding: it is found after the (matchless) prefix. -/
theorem find?_append_self {α : Type} (key : String) (e : CacheEntry α) :
    ∀ c : Cache α, mapHasKey c key = false →
      (c ++ [(key, e)]).find? (fun p => decide (p.1 = key)) = some (key, e) := by
  intro c
  induction c with
  | nil =>
    intro h
    exact List.find?_cons_of_pos _ (by simp)
  | cons p rest ih =>
    intro h
    simp only [mapHasKey, List.any_cons, Bool.or_eq_false_iff,
      decide_eq_false_iff_not] at h
    rw [List.cons_append, List.find?_cons_of_neg _ (by simp [h.1])]
    apply ih
    simp only [mapHasKey]
    exact h.2

/-- `Map.get` right after `Map.set` yields the bound entry. -/
theorem mapGet_mapSet_self {α : Type} (c : Cache α) (key : String) (e : CacheEntry α) :
    mapGet (mapSet c key e) key = some e := by
  by_cases h : mapHasKey c key
  · rw [mapSet, if_pos h, mapGet, find?_update_self key e c h]
    rfl
  · rw [mapSet, if_neg h, mapGet,
      find?_append_self key e c (Bool.not_eq_true _ ▸ h)]
    rfl

/-- After `Map.delete`, the key is gone. -/
theorem mapGet_mapDelete_self {α : Type} (c : Cache α) (key : String) :
    mapGet (mapDelete c key) key = none := by
  rw [mapGet]
  have h : (mapDelete c key).find? (fun p => decide (p.1 = key)) = none := by
    rw [List.find?_eq_none]
    intro x hx
    have hmem := (List.mem_filter.mp hx).2
    simp only [decide_eq_true_eq] at hmem
    simp [hmem]
  rw [h]
  rfl

/-- `Map.set` preserves size on present keys and adds one binding on fresh
keys. -/
theorem length_mapSet {α : Type} (c : Cache α) (key : String) (e : CacheEntry α) :
    (mapSet c key e).length =
      if mapHasKey c key then c.length else c.length + 1 := by
  by_cases h : mapHasKey c key
  · rw [mapSet, if_pos h, if_pos h, List.length_map]
  · rw [mapSet, if_neg h, if_neg h, List.length_append, List.length_cons,
      List.length_nil]

/-- Inserting a 101st fresh key into a full cache whose list order is its
insertion order (timestamps ascending, all at or before `now`) evicts exactly
the single oldest-inserted entry: the head. -/
theorem setCached_evicts_oldest {α : Type} (now : Nat) (c : Cache α) (key : String)
    (v : α)
    (hnd : (c.map Prod.fst).Nodup)
    (hsor : List.Sorted (fun (a b : String × CacheEntry α) =>
      a.2.timestamp ≤ b.2.timestamp) c)
    (hts : ∀ p ∈ c, p.2.timestamp ≤ now)
    (hlen : c.length = 100)
    (hkey : mapHasKey c key = false) :
    setCachedResponse now c key v = c.tail ++ [(key, ⟨v, now⟩)] := by
  obtain ⟨hd, tl, rfl⟩ : ∃ hd tl, c = hd :: tl := by
    cases c with
    | nil => simp at hlen
    | cons hd tl => exact ⟨hd, tl, rfl⟩
  have hc1 : mapSet (hd :: tl) key ⟨v, now⟩ = (hd :: tl) ++ [(key, ⟨v, now⟩)] := by
    rw [mapSet, if_neg (by simp [hkey])]
  have hl : ((hd :: tl) ++ [((key, ⟨v, now⟩) : String × CacheEntry α)]).length = 101 := by
    rw [List.length_append, hlen]
    rfl
  have hsorted : List.Sorted (fun (a b : String × CacheEntry α) =>
      a.2.timestamp ≤ b.2.timestamp)
      ((hd :: tl) ++ [((key, ⟨v, now⟩) : String × CacheEntry α)]) := by
    rw [List.Sorted, List.pairwise_append]
    refine ⟨hsor, List.pairwise_singleton _ _, ?_⟩
    intro a ha b hb
    have hb' := List.mem_singleton.mp hb
    subst hb'
    exact hts a ha
  have hss : sortByTimestamp ((hd :: tl) ++ [((key, ⟨v, now⟩) : String × CacheEntry α)]) =
      (hd :: tl) ++ [((key, ⟨v, now⟩) : String × CacheEntry α)] := by
    rw [sortByTimestamp]
    exact List.Sorted.insertionSort_eq hsorted
  have hkeyparts : ¬ hd.1 = key ∧ mapHasKey tl key = false := by
    simp only [mapHasKey, List.any_cons, Bool.or_eq_false_iff,
      decide_eq_false_iff_not] at hkey
    exact ⟨hkey.1, by simp only [mapHasKey]; exact hkey.2⟩
  have hndparts : hd.1 ∉ tl.map Prod.fst := by
    rw [List.map_cons, List.nodup_cons] at hnd
    exact hnd.1
  rw [setCachedResponse]
  dsimp only
  rw [hc1, hl]
  rw [if_pos (by omega)]
  rw [hss]
  have htake : ((hd :: tl) ++ [((key, ⟨v, now⟩) : String × CacheEntry α)]).take (101 - 100) =
      [hd] := by
    rfl
  rw [htake]
  simp only [List.foldl_cons, List.foldl_nil]
  rw [mapDelete, List.cons_append, List.filter_cons]
  rw [if_neg (by simp)]
  have hfid : List.filter (fun p => decide (¬ p.1 = hd.1))
      (tl ++ [((key, ⟨v, now⟩) : String × CacheEntry α)]) =
      tl ++ [((key, ⟨v, now⟩) : String × CacheEntry α)] := by
    apply List.filter_eq_self.mpr
    intro a ha
    rcases List.mem_append.mp ha with ha' | ha'
    · have : a.1 ∈ tl.map Prod.fst := List.mem_map_of_mem Prod.fst ha'
      simp only [decide_eq_true_eq]
      intro hcontra
      rw [hcontra] at this
      exact hndparts this
    · have ha'' := List.mem_singleton.mp ha'
      subst ha''
      simp only [decide_eq_true_eq]
      intro hcontra
      exact hkeyparts.1 hcontra.symm
  rw [hfid]
  rfl

/-- `get` right after `put` finds the just-written entry: over-capacity
eviction (if any) removes only the oldest entry, never the fresh one. -/
theorem mapGet_setCached_self {α : Type} (now : Nat) (c : Cache α) (key : String)
    (v : α)
    (hnd : (c.map Prod.fst).Nodup)
    (hsor : List.Sorted (fun (a b : String × CacheEntry α) =>
      a.2.timestamp ≤ b.2.timestamp) c)
    (hts : ∀ p ∈ c, p.2.timestamp ≤ now)
    (hlen : c.length ≤ 100) :
    mapGet (setCachedResponse now c key v) key = some ⟨v, now⟩ := by
  by_cases hhk : mapHasKey c key
  · have hlen1 : (mapSet c key ⟨v, now⟩).length = c.length := by
      rw [length_mapSet, if_pos hhk]
    rw [setCachedResponse]
    dsimp only
    rw [if_neg (by rw [hlen1]; omega)]
    exact mapGet_mapSet_self c key ⟨v, now⟩
  · have hhk' : mapHasKey c key = false := Bool.not_eq_true _ ▸ hhk
    by_cases hfull : c.length = 100
    · rw [setCached_evicts_oldest now c key v hnd hsor hts hfull hhk']
      have htl : mapHasKey c.tail key = false := by
        cases c with
        | nil => rfl
        | cons hd tl =>
          simp only [mapHasKey, List.any_cons, Bool.or_eq_false_iff] at hhk'
          exact hhk'.2
      rw [mapGet, find?_append_self key ⟨v, now⟩ c.tail htl]
      rfl
    · have hlen1 : (mapSet c key ⟨v, now⟩).length = c.length + 1 := by
        rw [length_mapSet, if_neg hhk]
      rw [setCachedResponse]
      dsimp only
      rw [if_neg (by rw [hlen1]; omega)]
      exact mapGet_mapSet_self c key ⟨v, now⟩

/-- Claim C4: on caches in insertion order with unique keys (the states the
module actually builds), `get` immediately after `put` returns the stored
value; an expired entry makes `get` report a miss and removes the entry; a
`put` never leaves more than 100 entries; and a `put` of a 101st distinct key
evicts exactly the single oldest-inserted entry. -/
theorem claim_C4_cache_contract {α : Type} :
    (∀ (now : Nat) (c : Cache α) (key : String) (v : α),
      (c.map Prod.fst).Nodup →
      List.Sorted (fun (a b : String × CacheEntry α) =>
        a.2.timestamp ≤ b.2.timestamp) c →
      (∀ p ∈ c, p.2.timestamp ≤ now) →
      c.length ≤ 100 →
      (getCachedResponse now (setCachedResponse now c key v) key).1 = some v) ∧
    (∀ (now : Nat) (c : Cache α) (key : String) (e : CacheEntry α),
      mapGet c key = some e → CACHE_DURATION ≤ now - e.timestamp →
      getCachedResponse now c key = (none, mapDelete c key) ∧
      mapGet (mapDelete c key) key = none) ∧
    (∀ (now : Nat) (c : Cache α) (key : String) (v : α),
      (c.map Prod.fst).Nodup →
      List.Sorted (fun (a b : String × CacheEntry α) =>
        a.2.timestamp ≤ b.2.timestamp) c →
      (∀ p ∈ c, p.2.timestamp ≤ now) →
      c.length ≤ 100 →
      (setCachedResponse now c key v).length ≤ 100) ∧
    (∀ (now : Nat) (c : Cache α) (key : String) (v : α),
      (c.map Prod.fst).Nodup →
      List.Sorted (fun (a b : String × CacheEntry α) =>
        a.2.timestamp ≤ b.2.timestamp) c →
      (∀ p ∈ c, p.2.timestamp ≤ now) →
      c.length = 100 → mapHasKey c key = false →
      setCachedResponse now c key v = c.tail ++ [(key, ⟨v, now⟩)]) := by
  refine ⟨?_, ?_, ?_, ?_⟩
  · intro now c key v hnd hsor hts hlen
    rw [getCachedResponse, mapGet_setCached_self now c key v hnd hsor hts hlen]
    dsimp only
    have hdur : 0 < CACHE_DURATION := by decide
    rw [if_pos (by omega)]
  · intro now c key e he hexp
    refine ⟨?_, mapGet_mapDelete_self c key⟩
    rw [getCachedResponse, he]
    dsimp only
    rw [if_neg (by omega)]
  · intro now c key v hnd hsor hts hlen
    by_cases hhk : mapHasKey c key
    · have hlen1 : (mapSet c key ⟨v, now⟩).length = c.length := by
        rw [length_mapSet, if_pos hhk]
      rw [setCachedResponse]
      dsimp only
      rw [if_neg (by rw [hlen1]; omega), hlen1]
      exact hlen
    · have hhk' : mapHasKey c key = false := Bool.not_eq_true _ ▸ hhk
      by_cases hfull : c.length = 100
      · rw [setCached_evicts_oldest now c key v hnd hsor hts hfull hhk']
        rw [List.length_append, List.length_tail, hfull]
        simp
      · have hlen1 : (mapSet c key ⟨v, now⟩).length = c.length + 1 := by
          rw [length_mapSet, if_neg hhk]
        rw [setCachedResponse]
        dsimp only
        rw [if_neg (by rw [hlen1]; omega), hlen1]
        omega
  · intro now c key v hnd hsor hts hlen hhk
    exact setCached_evicts_oldest now c key v hnd hsor hts hlen hhk

/-- Claim C4 witness: concrete get-after-put on a two-entry cache and a
concrete expiry at exactly the TTL boundary. -/
theorem claim_C4_witness :
    (getCachedResponse 30 (setCachedResponse 30
      ([("a", ⟨1, 10⟩), ("b", ⟨2, 20⟩)] : Cache Nat) "c" 5) "c").1 = some 5 ∧
    getCachedResponse 300010 ([("a", ⟨(1 : Nat), 10⟩)] : Cache Nat) "a" =
      (none, ([] : Cache Nat)) := by
  constructor
  · exact claim_C4_cache_contract.1 30 ([("a", ⟨1, 10⟩), ("b", ⟨2, 20⟩)] : Cache Nat)
      "c" 5 (by decide) (by decide) (by decide) (by decide)
  · have h := (claim_C4_cache_contract.2.1 300010 ([("a", ⟨(1 : Nat), 10⟩)] : Cache Nat)
      "a" ⟨1, 10⟩ (by decide) (by decide)).1
    rw [h]
    rfl
